import Mathlib

/-! Directory-Analyzer: verification of the traversal and aggregation engine.

Shallow embedding of the Directory-Analyzer repository, which ships two
near-duplicate program variants:

* `src/da.cpp` — the sequential analyzer (`FileAnalyzer::analyze` recurses
  directly, `FileTypeStats::update` checks for overflow, `escapeCSV` at lines
  209–220);
* the multithreaded variant embedded in `src/README.md` (lines 91–826) —
  `FileAnalyzer::processFile` / `processDirectory` with a `processedDirs`
  path-string cache, atomic counters, fan-out via `std::async`, and a state
  reset at the start of `analyze`.

Counters are `size_t` in C++.  Except where overflow itself is at issue
(`FileTypeStats.update` below), counters are modelled as `Nat`: the sequential
variant raises `std::overflow_error` instead of wrapping, so on every run that
completes without an overflow error the `size_t` values coincide with the
`Nat` values.
-/

/-! ## String helpers (da.cpp lines 39–48, README lines 187–197)

`safeToLower` applies `std::tolower` byte-wise; in the default "C" locale
this lower-cases exactly the ASCII letters `A`–`Z`. -/

def asciiLowerChar (c : Char) : Char :=
  if 'A' ≤ c ∧ c ≤ 'Z' then Char.ofNat (c.toNat + 32) else c

def safeToLower (s : String) : String :=
  ⟨s.data.map asciiLowerChar⟩

/-! ## Path decomposition (std::filesystem::path)

`filenameOf` models `path.filename().string()`: the component after the last
directory separator (empty when the path ends in a separator).
`extensionOf` models `path.extension().string()` applied to the filename:
empty for `.`, `..` and names without a period, otherwise the substring from
the rightmost period (period included) to the end. -/

def filenameOf (p : String) : String :=
  ⟨((p.data.reverse.takeWhile (fun c => ¬ c = '/')).reverse)⟩

def extensionOf (f : String) : String :=
  if f = "." ∨ f = ".." ∨ ¬ f.data.contains '.' then ""
  else ⟨'.' :: (f.data.reverse.takeWhile (fun c => ¬ c = '.')).reverse⟩

/-- Models `s[0] == '.'` on a `std::string`: `s[0]` of an empty string is the
null character, so the comparison is false for the empty string. -/
def headIsDot (s : String) : Bool :=
  match s.data with
  | [] => false
  | c :: _ => c = '.'

/-! ## File-type classification (`FileAnalyzer::getFileType`,
da.cpp lines 115–142, README lines 200–227; both variants are identical) -/

def getFileType (p : String) : String :=
  if p = "" then "[invalid]"
  else
    let filename := filenameOf p
    if filename = "" then "[invalid]"
    else
      let ext := safeToLower (extensionOf filename)
      if headIsDot filename then
        if filename = ext then "[dotfile]"
        else if ¬ ext = "" then ext else "[dotfile]"
      else if ext = "" then "[no extension]" else ext


/-! ## Per-type statistics with `size_t` semantics
(`FileTypeStats`, da.cpp lines 79–99 and README lines 139–150)

`SIZE_T_MAX` is `std::numeric_limits<size_t>::max()` on the 64-bit targets
the program is built for. -/

def SIZE_T_MAX : Nat := 2 ^ 64 - 1

structure FileTypeStats where
  count : Nat
  totalSize : Nat
deriving DecidableEq

/-- Models `FileTypeStats::update` of the sequential variant (da.cpp lines 85–98):
overflow of either counter raises `std::overflow_error` (modelled as
`Except.error`); note the C++ increments `count` before the size check, so a
size-overflow throw leaves `count` incremented — the error case discards the
partial state here, which is observable only through later accounting, not
through this function's result. -/
def FileTypeStats.update (s : FileTypeStats) (size : Nat) : Except String FileTypeStats :=
  if s.count = SIZE_T_MAX then .error "File count overflow"
  else
    let c := s.count + 1
    if s.totalSize > SIZE_T_MAX - size then .error "Total size overflow"
    else .ok ⟨c, s.totalSize + size⟩

/-- Models `FileTypeStats::update` of the multithreaded variant (README lines
145–149): plain `std::atomic<size_t>` increments, which wrap modulo `2^64`
without any check. -/
def FileTypeStats.updateMT (s : FileTypeStats) (size : Nat) : FileTypeStats :=
  ⟨(s.count + 1) % 2 ^ 64, (s.totalSize + size) % 2 ^ 64⟩

/-! ## CSV escaping

`escapeCSV` of the sequential variant (da.cpp lines 209–220).  The C++ is

```
std::string escaped = str;
std::replace(escaped.begin(), escaped.end(), '"', '"');
return "\x22" + escaped + "\x22";
```

`std::replace` substitutes single characters in place; replacing `'"'` by
`'"'` is the identity, which the model mirrors with `stdReplaceChar`. -/

def stdReplaceChar (l : List Char) (a b : Char) : List Char :=
  l.map (fun c => if c = a then b else c)

def escapeCSV (str : String) : String :=
  if str.data.contains ',' ∨ str.data.contains '"' ∨ str.data.contains '\n' then
    "\"" ++ (⟨stdReplaceChar str.data '"' '"'⟩ : String) ++ "\""
  else str

/-- Models `escapeCSV` of the multithreaded variant (README lines 299–313): fields
containing one of `, " \n \r` are wrapped in quotes with every internal
quote doubled (the `while`/`replace(pos, 1, "\x22\x22")` loop). -/
def doubleQuotes : List Char → List Char
  | [] => []
  | '"' :: rest => '"' :: '"' :: doubleQuotes rest
  | c :: rest => c :: doubleQuotes rest

def escapeCSVMT (str : String) : String :=
  if str.data.contains ',' ∨ str.data.contains '"' ∨
      str.data.contains '\n' ∨ str.data.contains '\r' then
    "\"" ++ (⟨doubleQuotes str.data⟩ : String) ++ "\""
  else str

/-- Strict RFC-4180 parse of a single CSV field, the inverse direction of the
round-trip: a quoted field must consist of the outer quotes with every
internal quote doubled; a bare internal quote that is not doubling and not
the terminator makes the field malformed (`none`). -/
def csvUnquote : List Char → Option (List Char)
  | [] => none
  | '"' :: [] => some []
  | '"' :: '"' :: rest => (csvUnquote rest).map (fun l => '"' :: l)
  | '"' :: _ => none
  | c :: rest => (csvUnquote rest).map (fun l => c :: l)

def parseCSVField (s : String) : Option String :=
  match s.data with
  | '"' :: rest => (csvUnquote rest).map (fun l => ⟨l⟩)
  | _ => some s


/-! ## Filter configuration

`excludeDirs`/`shouldExclude` compare full paths (string prefix plus
`fs::equivalent`); the model abstracts the whole check into a per-path
predicate `excl` on the path's component list, which is exactly the
information `shouldExclude` consumes.  `includeTypes` is a `std::set`
modelled as a duplicate-free list. -/

structure Config where
  showHidden : Bool
  includeTypes : List String
  minSize : Nat
  maxSize : Nat
  excl : List String → Bool

/-- Models `FileAnalyzer::isWithinSizeThreshold` (da.cpp lines 203–206). -/
def isWithinSizeThreshold (cfg : Config) (size : Nat) : Bool :=
  decide (cfg.minSize ≤ size) && decide (size ≤ cfg.maxSize)

/-- Models `FileAnalyzer::shouldInclude` (da.cpp lines 193–200): an empty include
set admits every type. -/
def shouldInclude (cfg : Config) (fileType : String) : Bool :=
  cfg.includeTypes.isEmpty || cfg.includeTypes.contains fileType

/-- Models `FileAnalyzer::addIncludeType` (da.cpp lines 244–247): the empty string
is replaced by the `[no extension]` sentinel before insertion into the
`std::set` (which also deduplicates). -/
def addIncludeType (types : List String) (t : String) : List String :=
  let t' := if t = "" then "[no extension]" else t
  if types.contains t' then types else types ++ [t']

/-! ## Directory trees

A regular file carries `some size`, or `none` when `fs::file_size` fails
(the `std::error_code` path, da.cpp lines 301–307).  Directory entries that
are neither regular files nor directories are skipped by both variants and
are not modelled. -/

mutual
inductive Entry where
  | file (name : String) (size : Option Nat)
  | dir (name : String) (children : Forest)

inductive Forest where
  | nil
  | cons (e : Entry) (f : Forest)
end

/-! ## Analysis state

The `std::unordered_map<std::string, FileTypeStats>` is observably a finite
map from type labels to counters; it is modelled canonically as an
association list sorted by key, mutated only through `insertUpd` (the model
of `stats[fileType].update(size)`, which default-constructs an absent entry
and then increments).  `insertUpd` adds with `Nat` arithmetic — the
non-overflowing (non-throwing) execution of `FileTypeStats.update`. -/

structure AState where
  stats : List (String × FileTypeStats)
  totalFiles : Nat
  totalSize : Nat
  hiddenFiles : Nat
  hiddenSize : Nat
deriving DecidableEq

def initialAState : AState := ⟨[], 0, 0, 0, 0⟩

/-- Lexicographic comparison of char lists by code point, used to keep the
association list canonically sorted (a map's key order is unobservable in
the `std::unordered_map`, so any canonical order is a faithful model). -/
def charListLt : List Char → List Char → Bool
  | [], [] => false
  | [], _ :: _ => true
  | _ :: _, [] => false
  | a :: as, b :: bs =>
    if a.toNat < b.toNat then true
    else if b.toNat < a.toNat then false
    else charListLt as bs

def strLt (a b : String) : Bool :=
  charListLt a.data b.data

def insertUpd (k : String) (size : Nat) : List (String × FileTypeStats) → List (String × FileTypeStats)
  | [] => [(k, ⟨1, size⟩)]
  | (k', v) :: t =>
    if k = k' then (k', ⟨v.count + 1, v.totalSize + size⟩) :: t
    else if strLt k k' then (k, ⟨1, size⟩) :: (k', v) :: t
    else (k', v) :: insertUpd k size t

/-- Sum of `totalSize` over every per-type entry. -/
def sumStatsSize (l : List (String × FileTypeStats)) : Nat :=
  l.foldr (fun p acc => p.2.totalSize + acc) 0

/-! ## Sequential traversal (`FileAnalyzer::analyze`, da.cpp lines 258–341)

`analyze` iterates the entries of one directory: excluded entries are
skipped; a subdirectory named `.git` is accounted as one opaque blob of its
recursive size; other subdirectories are recursed into; regular files go
through the filter chain.  The object state is threaded through. -/

mutual
/-- Models `calculateDirectorySize` (da.cpp lines 223–234): recursive sum of the
sizes of all regular files.  In the C++ a failing `file_size` throws out of
`analyze` (no completed run results); the model sums the readable sizes,
which agrees with the C++ on every completed run. -/
def entryDirSize : Entry → Nat
  | .file _ size => size.getD 0
  | .dir _ children => forestDirSize children

def forestDirSize : Forest → Nat
  | .nil => 0
  | .cons e f => entryDirSize e + forestDirSize f
end

/-- The `.git` branch of `analyze` (da.cpp lines 277–292): the blob of size
`gsize` goes to the `.git` stats row (plus `totalFiles`) when hidden files
are shown, otherwise to the hidden counters; `totalSize` grows either way. -/
def gitBlob (cfg : Config) (st : AState) (gsize : Nat) : AState :=
  let st' :=
    if cfg.showHidden then
      { st with stats := insertUpd ".git" gsize st.stats, totalFiles := st.totalFiles + 1 }
    else
      { st with hiddenFiles := st.hiddenFiles + 1, hiddenSize := st.hiddenSize + gsize }
  { st' with totalSize := st'.totalSize + gsize }

/-- The regular-file branch of `analyze` (da.cpp lines 297–339): a failed
stat skips the file; the size gate and the type gate each skip silently;
then either the hidden counters or the per-type map plus `totalFiles` are
updated, and `totalSize` grows (da.cpp line 331). -/
def processFile (cfg : Config) (st : AState) (name : String) (size : Option Nat) : AState :=
  match size with
  | none => st
  | some s =>
    if isWithinSizeThreshold cfg s = false then st
    else if shouldInclude cfg (getFileType name) = false then st
    else
      let st' :=
        if headIsDot name && !cfg.showHidden then
          { st with hiddenFiles := st.hiddenFiles + 1, hiddenSize := st.hiddenSize + s }
        else
          { st with stats := insertUpd (getFileType name) s st.stats,
                    totalFiles := st.totalFiles + 1 }
      { st' with totalSize := st'.totalSize + s }

mutual
def processEntry (cfg : Config) (path : List String) (st : AState) : Entry → AState
  | .file name size =>
      if cfg.excl (path ++ [name]) then st else processFile cfg st name size
  | .dir name children =>
      if cfg.excl (path ++ [name]) then st
      else if name = ".git" then gitBlob cfg st (forestDirSize children)
      else processForest cfg (path ++ [name]) st children

def processForest (cfg : Config) (path : List String) (st : AState) : Forest → AState
  | .nil => st
  | .cons e f => processForest cfg path (processEntry cfg path st e) f
end

/-- Models how `analyze` of the sequential variant performs no reset: it accumulates
into whatever state the analyzer object already holds (da.cpp lines
258–341 mutate the members directly and `main` relies on the constructor
for the initial zero state). -/
def analyzeDa (cfg : Config) (prev : AState) (root : Forest) : AState :=
  processForest cfg [] prev root


/-! ## The multithreaded variant as an atomic-event trace
(`FileAnalyzer::processDirectory` / `processFile`, README lines 316–487)

Every mutation of shared state in the multithreaded variant is one of four
atomic operations: an `std::atomic` add to `totalSize`, to `hiddenFiles` or
to `hiddenSize`, or the `statsMutex`-guarded block
`{ stats[fileType].update(size); totalFiles++; }`.  A run of the program —
with any number of workers — performs exactly these operations, linearized
in some order by the atomics and the mutex.  `dirTrace` computes the event
list in the order of the single-worker (sequential branch) execution:
per directory, `.git` blobs are accounted during listing, deferred files
are processed next, deferred subdirectories last, and a directory whose
path string is already in `processedDirs` contributes nothing. -/

inductive Ev where
  /-- The `statsMutex` block: `stats[ft].update(size); totalFiles++`. -/
  | bump (ft : String) (size : Nat)
  /-- The add `hiddenFiles++`. -/
  | hidFile
  /-- The add `hiddenSize += size`. -/
  | hidSize (size : Nat)
  /-- The add `totalSize += size`. -/
  | tot (size : Nat)
deriving DecidableEq

def applyEv (st : AState) : Ev → AState
  | .bump ft size =>
      { st with stats := insertUpd ft size st.stats, totalFiles := st.totalFiles + 1 }
  | .hidFile => { st with hiddenFiles := st.hiddenFiles + 1 }
  | .hidSize size => { st with hiddenSize := st.hiddenSize + size }
  | .tot size => { st with totalSize := st.totalSize + size }

def applyEvs (st : AState) (l : List Ev) : AState :=
  l.foldl applyEv st

/-- Events of `processFile` (README lines 316–360): `totalSize += size`
first (line 340), then either the two hidden-counter adds or the locked
stats bump. -/
def fileEvsOf (cfg : Config) (name : String) (size : Option Nat) : List Ev :=
  match size with
  | none => []
  | some s =>
    if isWithinSizeThreshold cfg s = false then []
    else if shouldInclude cfg (getFileType name) = false then []
    else if headIsDot name && !cfg.showHidden then [.tot s, .hidFile, .hidSize s]
    else [.tot s, .bump (getFileType name) s]

/-- Events of the `.git` blob branch (README lines 399–437): `totalSize`
grows first (line 419), then the locked bump of the `.git` row or the
hidden counters. -/
def gitEvsOf (cfg : Config) (gsize : Nat) : List Ev :=
  if cfg.showHidden then [.tot gsize, .bump ".git" gsize]
  else [.tot gsize, .hidFile, .hidSize gsize]

/-- The listing loop's immediate `.git` accounting, in encounter order. -/
def gitEvs (cfg : Config) (path : List String) : Forest → List Ev
  | .nil => []
  | .cons (.file _ _) f => gitEvs cfg path f
  | .cons (.dir name children) f =>
      (if cfg.excl (path ++ [name]) then []
       else if name = ".git" then gitEvsOf cfg (forestDirSize children) else [])
        ++ gitEvs cfg path f

/-- The deferred per-file phase, in encounter order. -/
def fileEvs (cfg : Config) (path : List String) : Forest → List Ev
  | .nil => []
  | .cons (.dir _ _) f => fileEvs cfg path f
  | .cons (.file name size) f =>
      (if cfg.excl (path ++ [name]) then [] else fileEvsOf cfg name size)
        ++ fileEvs cfg path f

mutual
/-- Models `processDirectory` on the directory with path components `path` and
entry list `children`: the `processedDirs` check-and-insert (README lines
365–374, keyed on the path string), then listing with inline `.git`
accounting, then deferred files, then subdirectories. -/
def dirTrace (cfg : Config) (path : List String) (visited : List (List String)) (children : Forest) : List Ev × List (List String) :=
  if path ∈ visited then ([], visited)
  else
    let out := subTrace cfg path (path :: visited) children
    (gitEvs cfg path children ++ fileEvs cfg path children ++ out.1, out.2)

def subTrace (cfg : Config) (path : List String) (visited : List (List String)) : Forest → List Ev × List (List String)
  | .nil => ([], visited)
  | .cons e f =>
    let out₁ := subEntry cfg path visited e
    let out₂ := subTrace cfg path out₁.2 f
    (out₁.1 ++ out₂.1, out₂.2)

def subEntry (cfg : Config) (path : List String) (visited : List (List String)) : Entry → List Ev × List (List String)
  | .file _ _ => ([], visited)
  | .dir name children =>
      if cfg.excl (path ++ [name]) || name == ".git" then ([], visited)
      else dirTrace cfg (path ++ [name]) visited children
end

/-- Models `analyze` of the multithreaded variant (README lines 518–538): the
per-type map, the four scalar counters and `processedDirs` are all cleared
before `processDirectory(path)` runs, so the previous state `prev` is
discarded.  The result is the fold of the run's event trace from the empty
state. -/
def analyzeMT (cfg : Config) (_prev : AState) (root : Forest) : AState :=
  applyEvs initialAState (dirTrace cfg [] [] root).1

/-! ## The `processedDirs` claim in isolation (README lines 363–374)

`processDirectory` begins with, under `processedDirsMutex`:

```
std::string dirPathStr = dirPath.string();
if (processedDirs.find(dirPathStr) != processedDirs.end()) return;
processedDirs.insert(dirPathStr);
```

The key is the *path string as spelled*, not a canonical identity.  A
`DirVisit` is one invocation of `processDirectory`: the path string it was
called with, plus the canonical identity (inode) of the directory that path
resolves to — two aliasing paths share `canonId` but differ in `pathStr`. -/

structure DirVisit where
  pathStr : String
  canonId : Nat
deriving DecidableEq

/-- The atomic membership-check-and-insert performed under
`processedDirsMutex`: `true` means the caller owns the visit. -/
def claimDir (visited : List String) (p : String) : Bool × List String :=
  if p ∈ visited then (false, visited) else (true, p :: visited)

/-- Runs a sequence of `processDirectory` invocations against the shared
`processedDirs` set, returning the visits that proceed past the guard
(i.e. whose directory body actually executes). -/
def runVisits (visited : List String) : List DirVisit → List DirVisit
  | [] => []
  | v :: rest =>
    let c := claimDir visited v.pathStr
    if c.1 then v :: runVisits c.2 rest else runVisits c.2 rest

/-! ## The classification described by the specification (claim C7)

`classifySpec` follows the claim's wording literally: `[invalid]` for an
empty path or filename; `[dotfile]` when the filename starts with `.` and
the whole name is its extension; otherwise the lower-cased extension when
one exists; `[no extension]` otherwise.  `classifyAmended` is the corrected
description: the `[dotfile]` case additionally requires the lower-casing of
the extension to equal the whole filename (or the extension to be empty, as
for `.` and `..`). -/

def classifySpec (p : String) : String :=
  if p = "" ∨ filenameOf p = "" then "[invalid]"
  else
    let f := filenameOf p
    if headIsDot f ∧ extensionOf f = f then "[dotfile]"
    else if ¬ extensionOf f = "" then safeToLower (extensionOf f)
    else "[no extension]"

def classifyAmended (p : String) : String :=
  if p = "" ∨ filenameOf p = "" then "[invalid]"
  else
    let f := filenameOf p
    let e := safeToLower (extensionOf f)
    if headIsDot f ∧ (e = f ∨ e = "") then "[dotfile]"
    else if ¬ e = "" then e
    else "[no extension]"

/-! ## Concrete fixtures used by witnesses and counterexamples -/

/-- No filters: hidden files not shown, no include types, full size range,
nothing excluded. -/
def cfgPlain : Config := ⟨false, [], 0, SIZE_T_MAX, fun _ => false⟩

/-- Same but with hidden files shown (`-a`). -/
def cfgAll : Config := ⟨true, [], 0, SIZE_T_MAX, fun _ => false⟩

/-- The size-threshold scenario of the specification: `min=1024`,
`max=4096`, no type filter. -/
def cfgSize : Config := ⟨false, [], 1024, 4096, fun _ => false⟩

/-- A type-filtered configuration that includes `.txt` files only. -/
def cfgTxt : Config := ⟨false, [".txt"], 0, SIZE_T_MAX, fun _ => false⟩

/-- Files of sizes 500, 2048 and 5000 bytes. -/
def forestSizes : Forest :=
  .cons (.file "a.txt" (some 500))
    (.cons (.file "b.txt" (some 2048))
      (.cons (.file "c.txt" (some 5000)) .nil))

/-- A small mixed tree: a visible file, a subdirectory with a hidden file
and a further file, and a `.git` directory holding 900 bytes. -/
def forestMixed : Forest :=
  .cons (.file "a.txt" (some 5))
    (.cons (.dir "sub"
      (.cons (.file ".env" (some 100))
        (.cons (.file "b.md" (some 7)) .nil)))
      (.cons (.dir ".git"
        (.cons (.file "HEAD" (some 400))
          (.cons (.dir "objects" (.cons (.file "pack" (some 500)) .nil)) .nil)))
        .nil))

/-- A size- and type-filtered configuration: only `.txt` files between 1024
and 4096 bytes. -/
def cfgSizeTxt : Config := ⟨false, [".txt"], 1024, 4096, fun _ => false⟩

/-- An invocation of `processDirectory` through a symlinked path. -/
def aliasVisitA : DirVisit := ⟨"root/link", 7⟩

/-- An invocation of `processDirectory` on the same physical directory
through its real path. -/
def aliasVisitB : DirVisit := ⟨"root/real", 7⟩

/-- The closed-accounting invariant of claim C1. -/
def acct (st : AState) : Prop :=
  sumStatsSize st.stats + st.hiddenSize = st.totalSize

/-! ## Helper lemmas -/

/-- Simultaneous induction over the mutual `Entry`/`Forest` inductive. -/
theorem entryForestInd {P : Entry → Prop} {Q : Forest → Prop}
    (hfile : ∀ n sz, P (.file n sz))
    (hdir : ∀ n f, Q f → P (.dir n f))
    (hnil : Q .nil)
    (hcons : ∀ e f, P e → Q f → Q (.cons e f)) :
    (∀ e, P e) ∧ (∀ f, Q f) :=
  ⟨fun e => Entry.rec hfile hdir hnil hcons e, fun f => Forest.rec hfile hdir hnil hcons f⟩

theorem sumStatsSize_nil : sumStatsSize [] = 0 := rfl

theorem sumStatsSize_cons (k : String) (v : FileTypeStats) (t : List (String × FileTypeStats)) :
    sumStatsSize ((k, v) :: t) = v.totalSize + sumStatsSize t := rfl

theorem charListLt_asymm : ∀ x y : List Char, charListLt x y = true → charListLt y x = false := by
  intro x
  induction x with
  | nil =>
    intro y h
    cases y with
    | nil => simp [charListLt] at h
    | cons b bs => simp [charListLt]
  | cons a as ih =>
    intro y h
    cases y with
    | nil => simp [charListLt] at h
    | cons b bs =>
      by_cases h₁ : a.toNat < b.toNat
      · have h₂ : ¬ b.toNat < a.toNat := by omega
        simp [charListLt, h₁, h₂]
      · by_cases h₂ : b.toNat < a.toNat
        · simp [charListLt, h₁, h₂] at h
        · simp only [charListLt, h₁, h₂, if_false] at h
          simp [charListLt, h₁, h₂, ih bs h]

theorem charListLt_trans : ∀ x y z : List Char,
    charListLt x y = true → charListLt y z = true → charListLt x z = true := by
  intro x
  induction x with
  | nil =>
    intro y z hxy hyz
    cases y with
    | nil => simp [charListLt] at hxy
    | cons b bs =>
      cases z with
      | nil => simp [charListLt] at hyz
      | cons c cs => simp [charListLt]
  | cons a as ih =>
    intro y z hxy hyz
    cases y with
    | nil => simp [charListLt] at hxy
    | cons b bs =>
      cases z with
      | nil => simp [charListLt] at hyz
      | cons c cs =>
        by_cases h₁ : a.toNat < b.toNat <;> by_cases h₄ : b.toNat < a.toNat
        · omega
        · by_cases h₂ : b.toNat < c.toNat
          · have : a.toNat < c.toNat := by omega
            simp [charListLt, this]
          · by_cases h₃ : c.toNat < b.toNat
            · simp [charListLt, h₂, h₃] at hyz
            · have : a.toNat < c.toNat := by omega
              simp [charListLt, this]
        · simp [charListLt, h₁, h₄] at hxy
        · by_cases h₂ : b.toNat < c.toNat
          · have hac : a.toNat < c.toNat := by omega
            simp [charListLt, hac]
          · by_cases h₃ : c.toNat < b.toNat
            · simp [charListLt, h₂, h₃] at hyz
            · have hac : ¬ a.toNat < c.toNat := by omega
              have hca : ¬ c.toNat < a.toNat := by omega
              simp only [charListLt, h₁, h₄, if_false] at hxy
              simp only [charListLt, h₂, h₃, if_false] at hyz
              simp [charListLt, hac, hca, ih bs cs hxy hyz]

theorem charListLt_connex : ∀ x y : List Char,
    ¬ x = y → charListLt x y = true ∨ charListLt y x = true := by
  intro x
  induction x with
  | nil =>
    intro y hne
    cases y with
    | nil => exact absurd rfl hne
    | cons b bs => left; simp [charListLt]
  | cons a as ih =>
    intro y hne
    cases y with
    | nil => right; simp [charListLt]
    | cons b bs =>
      by_cases h₁ : a.toNat < b.toNat
      · left; simp [charListLt, h₁]
      · by_cases h₂ : b.toNat < a.toNat
        · right; simp [charListLt, h₂]
        · have hab : a = b := by
            have hn : a.toNat = b.toNat := by omega
            calc a = Char.ofNat a.toNat := (Char.ofNat_toNat a).symm
            _ = Char.ofNat b.toNat := by rw [hn]
            _ = b := Char.ofNat_toNat b
          subst hab
          have htail : ¬ as = bs := fun h => hne (by rw [h])
          rcases ih bs htail with h | h
          · left; simp [charListLt, Nat.lt_irrefl, h]
          · right; simp [charListLt, Nat.lt_irrefl, h]

theorem strLt_asymm {a b : String} (h : strLt a b = true) : strLt b a = false :=
  charListLt_asymm a.data b.data h

theorem strLt_trans {a b c : String} (h₁ : strLt a b = true) (h₂ : strLt b c = true) :
    strLt a c = true :=
  charListLt_trans a.data b.data c.data h₁ h₂

theorem strLt_connex {a b : String} (h : ¬ a = b) : strLt a b = true ∨ strLt b a = true := by
  refine charListLt_connex a.data b.data (fun hd => h ?_)
  cases a; cases b
  exact congrArg String.mk hd

theorem sumStatsSize_insertUpd (k : String) (s : Nat) (l : List (String × FileTypeStats)) :
    sumStatsSize (insertUpd k s l) = sumStatsSize l + s := by
  induction l with
  | nil => simp [insertUpd, sumStatsSize_cons, sumStatsSize_nil]
  | cons hd t ih =>
    obtain ⟨k', v⟩ := hd
    by_cases h : k = k'
    · simp only [insertUpd, if_pos h, sumStatsSize_cons]; omega
    · by_cases h' : strLt k k' = true
      · simp [insertUpd, h, h', sumStatsSize_cons]; omega
      · simp [insertUpd, h, h', sumStatsSize_cons, ih]; omega

theorem insertUpd_self_comm (k : String) (s₁ s₂ : Nat) (l : List (String × FileTypeStats)) :
    insertUpd k s₁ (insertUpd k s₂ l) = insertUpd k s₂ (insertUpd k s₁ l) := by
  induction l with
  | nil =>
    simp [insertUpd, FileTypeStats.mk.injEq]
    omega
  | cons hd t ih =>
    obtain ⟨k', v⟩ := hd
    by_cases h : k = k'
    · simp [insertUpd, h, FileTypeStats.mk.injEq]
      omega
    · by_cases h' : strLt k k' = true
      · simp [insertUpd, h, h', FileTypeStats.mk.injEq]
        omega
      · simp [insertUpd, h, h', FileTypeStats.mk.injEq, ih]

theorem insertUpd_comm (k₁ k₂ : String) (s₁ s₂ : Nat) (l : List (String × FileTypeStats)) :
    insertUpd k₁ s₁ (insertUpd k₂ s₂ l) = insertUpd k₂ s₂ (insertUpd k₁ s₁ l) := by
  rcases eq_or_ne k₁ k₂ with rfl | hne
  · exact insertUpd_self_comm k₁ s₁ s₂ l
  · induction l with
    | nil =>
      rcases strLt_connex hne with hlt | hgt
      · simp [insertUpd, hne, Ne.symm hne, hlt, strLt_asymm hlt]
      · simp [insertUpd, hne, Ne.symm hne, hgt, strLt_asymm hgt]
    | cons hd t ih =>
      obtain ⟨k', v⟩ := hd
      by_cases h₁ : k₁ = k'
      · subst h₁
        rcases strLt_connex hne with hlt | hgt
        · simp [insertUpd, hne, Ne.symm hne, hlt, strLt_asymm hlt]
        · simp [insertUpd, hne, Ne.symm hne, hgt, strLt_asymm hgt]
      · by_cases h₂ : k₂ = k'
        · subst h₂
          rcases strLt_connex hne with hlt | hgt
          · simp [insertUpd, h₁, Ne.symm h₁, hlt, strLt_asymm hlt]
          · simp [insertUpd, h₁, Ne.symm h₁, hgt, strLt_asymm hgt]
        · by_cases l₁ : strLt k₁ k' = true
          · by_cases l₂ : strLt k₂ k' = true
            · rcases strLt_connex hne with hlt | hgt
              · simp [insertUpd, h₁, h₂, l₁, l₂, hne, Ne.symm hne, hlt, strLt_asymm hlt]
              · simp [insertUpd, h₁, h₂, l₁, l₂, hne, Ne.symm hne, hgt, strLt_asymm hgt]
            · have hk₂ : strLt k' k₂ = true :=
                (strLt_connex (Ne.symm h₂)).resolve_right l₂
              have h₁₂ : strLt k₁ k₂ = true := strLt_trans l₁ hk₂
              simp [insertUpd, h₁, h₂, l₁, l₂, hne, Ne.symm hne, h₁₂, strLt_asymm h₁₂]
          · by_cases l₂ : strLt k₂ k' = true
            · have hk₁ : strLt k' k₁ = true :=
                (strLt_connex (Ne.symm h₁)).resolve_right l₁
              have h₂₁ : strLt k₂ k₁ = true := strLt_trans l₂ hk₁
              simp [insertUpd, h₁, h₂, l₁, l₂, hne, Ne.symm hne, h₂₁, strLt_asymm h₂₁]
            · simp [insertUpd, h₁, h₂, l₁, l₂, ih]

/-- Any two atomic events of the multithreaded variant commute: the atomic
adds touch independent scalars, and the mutex-guarded map bumps commute by
`insertUpd_comm`. -/
theorem applyEv_comm (st : AState) (e₁ e₂ : Ev) :
    applyEv (applyEv st e₁) e₂ = applyEv (applyEv st e₂) e₁ := by
  cases e₁ <;> cases e₂ <;>
    simp [applyEv, AState.mk.injEq, insertUpd_comm, Nat.add_comm, Nat.add_assoc,
      Nat.add_left_comm]

/-- Folding the events in any permuted order yields the same state: the
linearization order chosen by the scheduler is irrelevant. -/
theorem applyEvs_perm {l₁ l₂ : List Ev} (h : l₁.Perm l₂) :
    ∀ st, applyEvs st l₁ = applyEvs st l₂ := by
  induction h with
  | nil => intro st; rfl
  | cons x _ ih => intro st; simpa [applyEvs] using ih (applyEv st x)
  | swap x y l => intro st; simp [applyEvs, applyEv_comm]
  | trans _ _ ih₁ ih₂ => intro st; rw [ih₁ st, ih₂ st]

theorem acct_processFile (cfg : Config) (st : AState) (name : String) (size : Option Nat)
    (h : acct st) : acct (processFile cfg st name size) := by
  unfold processFile
  cases size with
  | none => exact h
  | some s =>
    simp only [acct] at h ⊢
    split
    · exact h
    · split
      · exact h
      · split <;> simp [sumStatsSize_insertUpd] <;> omega

theorem acct_gitBlob (cfg : Config) (st : AState) (gsize : Nat) (h : acct st) :
    acct (gitBlob cfg st gsize) := by
  unfold gitBlob
  simp only [acct] at h ⊢
  split <;> simp [sumStatsSize_insertUpd] <;> omega

theorem acct_process :
    (∀ e, ∀ cfg path st, acct st → acct (processEntry cfg path st e)) ∧
    (∀ f, ∀ cfg path st, acct st → acct (processForest cfg path st f)) := by
  apply entryForestInd
  · intro n sz cfg path st h
    simp only [processEntry]
    split
    · exact h
    · exact acct_processFile cfg st n sz h
  · intro n f ihf cfg path st h
    simp only [processEntry]
    split
    · exact h
    · split
      · exact acct_gitBlob cfg st _ h
      · exact ihf cfg _ st h
  · intro cfg path st h
    simpa only [processForest] using h
  · intro e f ihe ihf cfg path st h
    simp only [processForest]
    exact ihf cfg path _ (ihe cfg path st h)

/-- Invariant of the `processedDirs` guard: across one run, the path strings
that proceed past the guard are pairwise distinct and disjoint from the
initially-visited set. -/
theorem runVisits_paths_nodup (vs : List DirVisit) : ∀ visited : List String,
    ((runVisits visited vs).map DirVisit.pathStr).Nodup ∧
    ∀ q ∈ (runVisits visited vs).map DirVisit.pathStr, q ∉ visited := by
  induction vs with
  | nil => intro visited; simp [runVisits]
  | cons v rest ih =>
    intro visited
    by_cases h : v.pathStr ∈ visited
    · have hrun : runVisits visited (v :: rest) = runVisits visited rest := by
        simp [runVisits, claimDir, h]
      rw [hrun]; exact ih visited
    · have hrun : runVisits visited (v :: rest) = v :: runVisits (v.pathStr :: visited) rest := by
        simp [runVisits, claimDir, h]
      rw [hrun]
      obtain ⟨hnd, hnotin⟩ := ih (v.pathStr :: visited)
      refine ⟨?_, ?_⟩
      · simp only [List.map_cons, List.nodup_cons]
        exact ⟨fun hq => (hnotin _ hq) (List.mem_cons_self _ _), hnd⟩
      · intro q hq
        simp only [List.map_cons, List.mem_cons] at hq
        rcases hq with rfl | hq
        · exact h
        · exact fun hqv => (hnotin q hq) (List.mem_cons_of_mem _ hqv)

/-! ## Claims -/

/-- Claim C1 (confirmed).  Closed accounting: after any completed run of
`analyze` (sequential variant, da.cpp lines 258–341) on any tree under any
filter configuration, the sum over all file-type keys of the per-type
`totalSize` plus `hiddenSize` equals `totalSize`; moreover a file whose size
could not be read, or one rejected by the size or the type filter, leaves
the state untouched, so it contributes to neither side of the equation. -/
theorem closed_accounting :
    (∀ cfg root, acct (analyzeDa cfg initialAState root)) ∧
    (∀ cfg path st n, processEntry cfg path st (.file n none) = st) ∧
    (∀ cfg path st n s,
      isWithinSizeThreshold cfg s = false ∨ shouldInclude cfg (getFileType n) = false →
      processEntry cfg path st (.file n (some s)) = st) := by
  refine ⟨?_, ?_, ?_⟩
  · intro cfg root
    exact acct_process.2 root cfg [] initialAState rfl
  · intro cfg path st n
    simp only [processEntry]
    split
    · rfl
    · rfl
  · intro cfg path st n s h
    simp only [processEntry]
    split
    · rfl
    · unfold processFile
      rcases h with h | h
      · simp [h]
      · by_cases hw : isWithinSizeThreshold cfg s = false
        · simp [hw]
        · simp [hw, h]

/-- Witness for C1: the 5000-byte file is outside the 1024–4096 threshold
and is skipped even though `.txt` is in the include set, and the invariant
holds on the mixed fixture tree. -/
theorem closed_accounting_witness :
    (isWithinSizeThreshold cfgSizeTxt 5000 = false ∨
      shouldInclude cfgSizeTxt (getFileType "c.txt") = false) ∧
    processEntry cfgSizeTxt [] initialAState (.file "c.txt" (some 5000)) = initialAState ∧
    acct (analyzeDa cfgSizeTxt initialAState forestSizes) :=
  ⟨Or.inl (by decide),
   closed_accounting.2.2 cfgSizeTxt [] initialAState "c.txt" 5000 (Or.inl (by decide)),
   closed_accounting.1 cfgSizeTxt forestSizes⟩

/-- Claim C5 (code bug).  The sequential variant's `escapeCSV` (da.cpp lines
209–220) wraps a quote-containing field but `std::replace(…, '"', '"')`
never doubles the internal quote, so the emitted field is malformed and the
strict CSV round-trip fails; the multithreaded variant's `escapeCSV` doubles
the quote and round-trips exactly, matching the claim. -/
theorem escapeCSV_quote_not_doubled :
    escapeCSV "a\"b" = "\"a\"b\"" ∧
    ¬ escapeCSV "a\"b" = "\"a\"\"b\"" ∧
    parseCSVField (escapeCSV "a\"b") = none ∧
    escapeCSVMT "a\"b" = "\"a\"\"b\"" ∧
    parseCSVField (escapeCSVMT "a\"b") = some "a\"b" := by
  decide

/-- Counterexample for C6: the multithreaded variant's accumulator update
(README lines 145–149) silently wraps both counters modulo `2^64` instead
of failing — adding 1 byte at `totalSize = 2^64 - 1` yields 0 with no
error, and the count wraps the same way. -/
theorem updateMT_wraps_silently :
    FileTypeStats.updateMT ⟨5, SIZE_T_MAX⟩ 1 = ⟨6, 0⟩ ∧
    FileTypeStats.updateMT ⟨SIZE_T_MAX, 0⟩ 0 = ⟨0, 0⟩ := by
  constructor
  · show FileTypeStats.mk ((5 + 1) % 2 ^ 64) ((SIZE_T_MAX + 1) % 2 ^ 64) = ⟨6, 0⟩
    simp [SIZE_T_MAX]
  · show FileTypeStats.mk ((SIZE_T_MAX + 1) % 2 ^ 64) ((0 + 0) % 2 ^ 64) = ⟨0, 0⟩
    simp [SIZE_T_MAX]

/-- Claim C6 (corrected).  In the sequential variant, `FileTypeStats::update`
(da.cpp lines 85–98) is checked, not wrapped: for any `size_t`-range input
it raises an overflow error exactly when the incremented count or the
accumulated size would exceed `SIZE_T_MAX`, and otherwise returns the exact
(unwrapped) sums; the multithreaded variant wraps instead (see the
counterexample). -/
theorem update_checked_not_wrapped :
    ∀ (s : FileTypeStats) (size : Nat), size ≤ SIZE_T_MAX →
      (s.count = SIZE_T_MAX ∨ SIZE_T_MAX < s.totalSize + size →
        ∃ msg, FileTypeStats.update s size = .error msg) ∧
      (¬ s.count = SIZE_T_MAX → s.totalSize + size ≤ SIZE_T_MAX →
        FileTypeStats.update s size = .ok ⟨s.count + 1, s.totalSize + size⟩) := by
  intro s size hsize
  constructor
  · intro h
    unfold FileTypeStats.update
    by_cases hc : s.count = SIZE_T_MAX
    · exact ⟨"File count overflow", by simp [hc]⟩
    · have hov : SIZE_T_MAX < s.totalSize + size := h.resolve_left hc
      have : s.totalSize > SIZE_T_MAX - size := by
        simp only [SIZE_T_MAX] at *
        omega
      exact ⟨"Total size overflow", by simp [hc, this]⟩
  · intro hc hle
    unfold FileTypeStats.update
    have : ¬ s.totalSize > SIZE_T_MAX - size := by
      simp only [SIZE_T_MAX] at *
      omega
    simp [hc, this]

/-- Witness for C6: at `totalSize = 2^64 - 1` adding one byte raises an
overflow error, and an in-range update returns the exact sums. -/
theorem update_checked_not_wrapped_witness :
    (1 ≤ SIZE_T_MAX ∧ SIZE_T_MAX < SIZE_T_MAX + 1 ∧
      ∃ msg, FileTypeStats.update ⟨3, SIZE_T_MAX⟩ 1 = .error msg) ∧
    (5 ≤ SIZE_T_MAX ∧ ¬ (3 : Nat) = SIZE_T_MAX ∧ (10 : Nat) + 5 ≤ SIZE_T_MAX ∧
      FileTypeStats.update ⟨3, 10⟩ 5 = .ok ⟨4, 15⟩) :=
  ⟨⟨by decide, by decide,
    (update_checked_not_wrapped ⟨3, SIZE_T_MAX⟩ 1 (by decide)).1 (Or.inr (by decide))⟩,
   ⟨by decide, by decide, by decide,
    (update_checked_not_wrapped ⟨3, 10⟩ 5 (by decide)).2 (by decide) (by decide)⟩⟩

/-- Counterexample for C7: the file name `.ENV` starts with `.` and the
whole name is its extension (`extensionOf ".ENV" = ".ENV"`), so the claim
classifies it `[dotfile]` (`classifySpec` follows the claim's wording), but
`getFileType` compares the raw filename against the *lower-cased* extension
and returns `.env`. -/
theorem getFileType_dotfile_case_mismatch :
    filenameOf ".ENV" = ".ENV" ∧
    headIsDot ".ENV" = true ∧
    extensionOf ".ENV" = ".ENV" ∧
    classifySpec ".ENV" = "[dotfile]" ∧
    getFileType ".ENV" = ".env" ∧
    ¬ getFileType ".ENV" = classifySpec ".ENV" := by
  decide

/-- Claim C7 (corrected).  For every path, `getFileType` returns `[invalid]`
when the path or its filename is empty; `[dotfile]` when the filename starts
with `.` and either the byte-wise-ASCII-lower-cased extension equals the
whole filename or the extension is empty; otherwise the lower-cased
extension when it is nonempty; and `[no extension]` otherwise. -/
theorem getFileType_classification :
    ∀ p, getFileType p = classifyAmended p := by
  intro p
  unfold getFileType classifyAmended
  by_cases hp : p = ""
  · simp [hp]
  · by_cases hf : filenameOf p = ""
    · simp [hp, hf]
    · simp only [hp, hf, if_false, or_self, ite_false]
      by_cases hd : headIsDot (filenameOf p)
      · by_cases he : filenameOf p = safeToLower (extensionOf (filenameOf p))
        · simp [hd, he.symm]
        · by_cases hee : safeToLower (extensionOf (filenameOf p)) = ""
          · simp [hd, he, Ne.symm he, hee]
          · simp [hd, he, Ne.symm he, hee]
      · simp [hd]

/-- Claim C2 (confirmed).  Concurrency invariance: every mutation of shared
state in the multithreaded variant is one of the atomic events of `Ev`, and
an N-worker run linearizes exactly the events of the single-worker run
(`dirTrace`) in some scheduler-dependent order; folding the events in *any*
such order — in particular the order produced by the fan-out over
subdirectory tasks (README lines 462–487) — yields the same per-type map
and the same four scalar counters as the sequential (1-worker) traversal. -/
theorem concurrency_invariance :
    ∀ cfg root l, l.Perm (dirTrace cfg [] [] root).1 →
      applyEvs initialAState l = analyzeMT cfg initialAState root := by
  intro cfg root l h
  unfold analyzeMT
  exact applyEvs_perm h initialAState

/-- Witness for C2: replaying the mixed fixture tree's event trace in
reversed order reproduces the sequential result. -/
theorem concurrency_invariance_witness :
    ((dirTrace cfgPlain [] [] forestMixed).1.reverse).Perm
      (dirTrace cfgPlain [] [] forestMixed).1 ∧
    applyEvs initialAState ((dirTrace cfgPlain [] [] forestMixed).1.reverse) =
      analyzeMT cfgPlain initialAState forestMixed :=
  ⟨List.reverse_perm _,
   concurrency_invariance cfgPlain forestMixed _ (List.reverse_perm _)⟩

/-- Counterexample for C3: `processedDirs` stores the path string as
spelled, not a canonical identity, so the same physical directory
(canonical id 7) reached through a symlink alias and through its real path
passes the guard twice and is processed twice in one run. -/
theorem processedDirs_alias_double_visit :
    ¬ aliasVisitA.pathStr = aliasVisitB.pathStr ∧
    aliasVisitA.canonId = aliasVisitB.canonId ∧
    runVisits [] [aliasVisitA, aliasVisitB] = [aliasVisitA, aliasVisitB] ∧
    (runVisits [] [aliasVisitA, aliasVisitB]).map DirVisit.canonId = [7, 7] := by
  decide

/-- Claim C3 (corrected).  The VisitedSet (`processedDirs`, README lines
363–374) holds the exact path strings of directories already dispatched;
membership check and insertion happen as one claim (under
`processedDirsMutex`) before listing begins; a directory whose path string
is already present is an idempotent no-op — so no directory is processed
twice *under the same path string* in one run, but a directory reachable by
two different path strings (e.g. a symlink alias) is not deduplicated. -/
theorem processedDirs_dedup_by_path_string :
    (∀ visited p, p ∈ visited → claimDir visited p = (false, visited)) ∧
    (∀ visited v rest, v.pathStr ∈ visited →
      runVisits visited (v :: rest) = runVisits visited rest) ∧
    (∀ vs visited, ((runVisits visited vs).map DirVisit.pathStr).Nodup) := by
  refine ⟨?_, ?_, ?_⟩
  · intro visited p h
    simp [claimDir, h]
  · intro visited v rest h
    simp [runVisits, claimDir, h]
  · intro vs visited
    exact (runVisits_paths_nodup vs visited).1

/-- Witness for C3: a repeat visit of an already-claimed path string is
dropped, and the surviving visit list has pairwise-distinct path strings. -/
theorem processedDirs_dedup_by_path_string_witness :
    ("root/link" : String) ∈ ["root/link"] ∧
    claimDir ["root/link"] "root/link" = (false, ["root/link"]) ∧
    aliasVisitA.pathStr ∈ ["root/link"] ∧
    runVisits ["root/link"] [aliasVisitA, aliasVisitB] =
      runVisits ["root/link"] [aliasVisitB] :=
  ⟨by decide,
   processedDirs_dedup_by_path_string.1 ["root/link"] "root/link" (by decide),
   by decide,
   processedDirs_dedup_by_path_string.2.1 ["root/link"] aliasVisitA [aliasVisitB] (by decide)⟩

/-- Counterexample for C4: the sequential variant's `analyze` performs no
reset (it is itself the recursive traversal procedure), so a second call on
the same analyzer instance accumulates on top of the first — the claim's
"reset at the start of every call" fails on da.cpp. -/
theorem analyzeDa_accumulates_across_calls :
    (analyzeDa cfgPlain initialAState forestMixed).totalFiles = 2 ∧
    (analyzeDa cfgPlain (analyzeDa cfgPlain initialAState forestMixed) forestMixed).totalFiles = 4 ∧
    ¬ analyzeDa cfgPlain (analyzeDa cfgPlain initialAState forestMixed) forestMixed =
        analyzeDa cfgPlain initialAState forestMixed := by
  decide

/-- Claim C4 (corrected).  In the multithreaded variant, `analyze` (README
lines 518–538) clears the per-type map, the four scalar counters and
`processedDirs` before traversing, so its result depends only on the tree
and the filter configuration and never on the analyzer's previous state;
the sequential variant's `analyze` performs no such reset (see the
counterexample). -/
theorem analyzeMT_resets_state :
    ∀ cfg root prev₁ prev₂, analyzeMT cfg prev₁ root = analyzeMT cfg prev₂ root := by
  intro cfg root prev₁ prev₂
  rfl

/-- Claim C8 (confirmed).  Hidden-file accounting: a regular file passing
the size and type gates whose name starts with `.` goes, when `showHidden`
is false, to `hiddenFiles`/`hiddenSize` plus `totalSize` while the per-type
map and `totalFiles` stay untouched; when `showHidden` is true it is folded
into its per-type entry and `totalFiles` exactly like any other file, with
no separate hidden bucket (da.cpp lines 320–331, README lines 340–353). -/
theorem hidden_file_accounting :
    ∀ cfg st name s,
      headIsDot name = true →
      isWithinSizeThreshold cfg s = true →
      shouldInclude cfg (getFileType name) = true →
      (cfg.showHidden = false →
        processFile cfg st name (some s) =
          { st with hiddenFiles := st.hiddenFiles + 1, hiddenSize := st.hiddenSize + s,
                    totalSize := st.totalSize + s }) ∧
      (cfg.showHidden = true →
        processFile cfg st name (some s) =
          { st with stats := insertUpd (getFileType name) s st.stats,
                    totalFiles := st.totalFiles + 1, totalSize := st.totalSize + s }) := by
  intro cfg st name s hdot hw hinc
  constructor
  · intro hsh
    unfold processFile
    simp [hw, hinc, hdot, hsh]
  · intro hsh
    unfold processFile
    simp [hw, hinc, hsh]

/-- Witness for C8: a file `.env` of 100 bytes with `showHidden = false`
yields one hidden file of 100 bytes and no per-type row; with
`showHidden = true` it lands under `[dotfile]` and counts in `totalFiles`. -/
theorem hidden_file_accounting_witness :
    headIsDot ".env" = true ∧
    getFileType ".env" = "[dotfile]" ∧
    processFile cfgPlain initialAState ".env" (some 100) = ⟨[], 0, 100, 1, 100⟩ ∧
    processFile cfgAll initialAState ".env" (some 100) = ⟨[("[dotfile]", ⟨1, 100⟩)], 1, 100, 0, 0⟩ :=
  ⟨by decide, by decide,
   (hidden_file_accounting cfgPlain initialAState ".env" 100
      (by decide) (by decide) (by decide)).1 rfl,
   (hidden_file_accounting cfgAll initialAState ".env" 100
      (by decide) (by decide) (by decide)).2 rfl⟩

/-- Claim C9 (confirmed).  The size gate and the type gate are independent
AND-combined filters (da.cpp lines 309–318): a file whose size is outside
`[min, max]` is skipped silently whatever its type (including when the type
is in the include set), a file whose type is excluded is skipped even when
its size is in range, and on files of sizes 500, 2048 and 5000 bytes under
`min = 1024`, `max = 4096` only the 2048-byte file is counted. -/
theorem size_type_filter_gates :
    (∀ cfg path st n s, isWithinSizeThreshold cfg s = false →
      processEntry cfg path st (.file n (some s)) = st) ∧
    (∀ cfg st n s, isWithinSizeThreshold cfg s = true →
      shouldInclude cfg (getFileType n) = false →
      processFile cfg st n (some s) = st) ∧
    (analyzeDa cfgSize initialAState forestSizes).totalFiles = 1 := by
  refine ⟨?_, ?_, ?_⟩
  · intro cfg path st n s h
    simp only [processEntry]
    split
    · rfl
    · unfold processFile
      simp [h]
  · intro cfg st n s hw h
    unfold processFile
    simp [hw, h]
  · decide

/-- Witness for C9: the 5000-byte `.txt` file is skipped although `.txt` is
in the include set, and an in-range `.md` file is skipped by the type gate. -/
theorem size_type_filter_gates_witness :
    isWithinSizeThreshold cfgSizeTxt 5000 = false ∧
    shouldInclude cfgSizeTxt ".txt" = true ∧
    processEntry cfgSizeTxt [] initialAState (.file "big.txt" (some 5000)) = initialAState ∧
    isWithinSizeThreshold cfgSizeTxt 2000 = true ∧
    shouldInclude cfgSizeTxt (getFileType "x.md") = false ∧
    processFile cfgSizeTxt initialAState "x.md" (some 2000) = initialAState :=
  ⟨by decide, by decide,
   size_type_filter_gates.1 cfgSizeTxt [] initialAState "big.txt" 5000 (by decide),
   by decide, by decide,
   size_type_filter_gates.2.1 cfgSizeTxt initialAState "x.md" 2000 (by decide) (by decide)⟩

/-- Claim C10 (confirmed).  `addIncludeType` inserts the `[no extension]`
sentinel when given the empty string and the string itself otherwise (its
membership semantics, first conjunct); the include set is never left empty
by an insertion, so the empty-set match-all rule is disabled (second
conjunct); consequently configuring one include type `t` selects exactly
the label `[no extension]` when `t` is empty and exactly `t` otherwise
(third conjunct), so an empty include-type argument selects exactly the
files classified `[no extension]` (fourth conjunct). -/
theorem addIncludeType_empty_sentinel :
    (∀ ts t x, x ∈ addIncludeType ts t ↔
      (x ∈ ts ∨ x = (if t = "" then "[no extension]" else t))) ∧
    (∀ ts t, (addIncludeType ts t).isEmpty = false) ∧
    (∀ t ft, shouldInclude ⟨false, addIncludeType [] t, 0, 0, fun _ => false⟩ ft =
      decide (ft = (if t = "" then "[no extension]" else t))) ∧
    (∀ p, shouldInclude ⟨false, addIncludeType [] "", 0, 0, fun _ => false⟩ (getFileType p) =
      decide (getFileType p = "[no extension]")) := by
  refine ⟨?_, ?_, ?_, ?_⟩
  · intro ts t x
    by_cases hc : (if t = "" then "[no extension]" else t) ∈ ts
    · simp only [addIncludeType, List.elem_eq_mem, hc, decide_eq_true_eq, if_true]
      exact ⟨Or.inl, fun h => h.elim id (fun hx => hx ▸ hc)⟩
    · simp only [addIncludeType, List.elem_eq_mem, decide_eq_true_eq, hc, if_false]
      simp [List.mem_append]
  · intro ts t
    by_cases hc : (if t = "" then "[no extension]" else t) ∈ ts
    · simp only [addIncludeType, List.elem_eq_mem, decide_eq_true_eq, hc, if_true]
      cases ts with
      | nil => simp at hc
      | cons a l => rfl
    · simp only [addIncludeType, List.elem_eq_mem, decide_eq_true_eq, hc, if_false]
      cases ts <;> rfl
  · intro t ft
    by_cases ht : t = "" <;>
      simp [shouldInclude, addIncludeType, ht]
  · intro p
    simp [shouldInclude, addIncludeType]
